import Mathlib

/-!
Verification of the Function-Highlighter parsing engine.

The definitions below are a shallow embedding of `src/parser.ts` (the
`CppParser` class: language tables, `setLanguage`, `parseFunctions`,
`findFunctionName`, `getFunctionBody`) together with the grouping logic of
the function tree view (`createRootItems`).  Syntax nodes are modelled as
finite rose trees carrying the data the engine reads from tree-sitter
nodes: a type string, the node text, start/end positions, named fields and
ordered children.  The external collaborators (tree-sitter grammar loading
and parsing) are modelled as explicit function parameters.
-/

/-- A tree-sitter position: zero-based row and column. -/
structure Pos where
  row : Nat
  col : Nat
deriving Repr, DecidableEq

/-- The portion of a tree-sitter `SyntaxNode` the engine reads: `type`,
`text`, `startPosition`, `endPosition`, named-field lookup and ordered
children.  (parser.ts accesses exactly these members.) -/
inductive SyntaxNode where
  | mk (type : String) (text : String) (startPosition endPosition : Pos)
       (fields : List (String × SyntaxNode)) (children : List SyntaxNode)

def SyntaxNode.type : SyntaxNode → String
  | .mk t _ _ _ _ _ => t

def SyntaxNode.text : SyntaxNode → String
  | .mk _ x _ _ _ _ => x

def SyntaxNode.startPosition : SyntaxNode → Pos
  | .mk _ _ s _ _ _ => s

def SyntaxNode.endPosition : SyntaxNode → Pos
  | .mk _ _ _ e _ _ => e

def SyntaxNode.fields : SyntaxNode → List (String × SyntaxNode)
  | .mk _ _ _ _ f _ => f

def SyntaxNode.children : SyntaxNode → List SyntaxNode
  | .mk _ _ _ _ _ c => c

/-- First field with the given name, if any. -/
def fieldLookup (name : String) : List (String × SyntaxNode) → Option SyntaxNode
  | [] => none
  | (k, v) :: rest => if k == name then some v else fieldLookup name rest

/-- `node.childForFieldName(name)` of tree-sitter, `null` becoming `none`. -/
def SyntaxNode.childForFieldName (n : SyntaxNode) (name : String) : Option SyntaxNode :=
  fieldLookup name n.fields

/-- parser.ts lines 17-35: map from VS Code language IDs to tree-sitter
grammar names. -/
def LANGUAGE_GRAMMAR_MAP : List (String × String) :=
  [("c", "c"),
   ("cpp", "cpp"),
   ("python", "python"),
   ("javascript", "javascript"),
   ("typescript", "typescript"),
   ("typescriptreact", "tsx"),
   ("javascriptreact", "javascript"),
   ("java", "java"),
   ("rust", "rust"),
   ("go", "go"),
   ("ruby", "ruby"),
   ("php", "php"),
   ("csharp", "c_sharp"),
   ("bash", "bash"),
   ("json", "json"),
   ("yaml", "yaml"),
   ("css", "css")]

/-- parser.ts lines 38-55: node types that represent function definitions,
per grammar. -/
def FUNCTION_NODE_TYPES : List (String × List String) :=
  [("c", ["function_definition"]),
   ("cpp", ["function_definition"]),
   ("python", ["function_definition"]),
   ("javascript", ["function_declaration", "function", "method_definition", "arrow_function"]),
   ("typescript", ["function_declaration", "function", "method_definition", "arrow_function"]),
   ("tsx", ["function_declaration", "function", "method_definition", "arrow_function"]),
   ("java", ["method_declaration", "constructor_declaration"]),
   ("rust", ["function_item"]),
   ("go", ["function_declaration", "method_declaration"]),
   ("ruby", ["method", "singleton_method"]),
   ("php", ["function_definition", "method_declaration"]),
   ("c_sharp", ["method_declaration", "constructor_declaration"]),
   ("bash", ["function_definition"]),
   ("json", []),
   ("yaml", []),
   ("css", [])]

/-- parser.ts lines 4-10: the `FunctionInfo` interface.  It has exactly
these five properties.  `lineCount` is a JS number computed by subtraction,
so it is modelled as an integer. -/
structure FunctionInfo where
  name : String
  startLine : Nat
  endLine : Nat
  lineCount : Int
  declarationLine : Nat
deriving Repr, DecidableEq

/-- The shared fallback scan of parser.ts lines 220-224 (also the inline
javascript scan of lines 203-207): first immediate child whose type is
`identifier`. -/
def firstIdentifierChild (node : SyntaxNode) : Option SyntaxNode :=
  node.children.find? (fun child => child.type == "identifier")

/-- sizeOf facts used for termination of the declarator unwinding loop. -/
theorem fieldLookup_mem {name : String} {l : List (String × SyntaxNode)} {v : SyntaxNode}
    (h : fieldLookup name l = some v) : ∃ k, (k, v) ∈ l := by
  induction l with
  | nil => simp [fieldLookup] at h
  | cons kv rest ih =>
    obtain ⟨k, w⟩ := kv
    by_cases hk : (k == name) = true
    · simp [fieldLookup, hk] at h
      exact ⟨k, by simp [h]⟩
    · simp [fieldLookup, hk] at h
      obtain ⟨k2, hm⟩ := ih h
      exact ⟨k2, by simp [hm]⟩

theorem sizeOf_fieldLookup {n : SyntaxNode} {name : String} {v : SyntaxNode}
    (h : n.childForFieldName name = some v) : sizeOf v < sizeOf n := by
  obtain ⟨k, hm⟩ := fieldLookup_mem h
  cases n with
  | mk t x s e fs cs =>
    simp only [SyntaxNode.fields] at hm
    have h1 := List.sizeOf_lt_of_mem hm
    simp at h1 ⊢
    omega

theorem sizeOf_mem_children {c n : SyntaxNode} (h : c ∈ n.children) : sizeOf c < sizeOf n := by
  cases n with
  | mk t x s e fs cs =>
    simp only [SyntaxNode.children] at h
    have h1 := List.sizeOf_lt_of_mem h
    simp
    omega

theorem sizeOf_getElem {n : SyntaxNode} {i : Nat} {c : SyntaxNode}
    (h : n.children[i]? = some c) : sizeOf c < sizeOf n := by
  have hm : c ∈ n.children := by
    obtain ⟨hlt, he⟩ := List.getElem?_eq_some.mp h
    exact he ▸ List.getElem_mem hlt
  exact sizeOf_mem_children hm

/-- parser.ts lines 173-193: the `while (current)` loop of
`findFunctionName` for the c/cpp grammars.  `some r` models the loop
executing a `return` statement with node `r`; `none` models the loop
ending by `break` or by `current` becoming undefined, after which control
falls through to the shared identifier-child scan. -/
def cUnwind (current : SyntaxNode) : Option SyntaxNode :=
  if current.type == "function_declarator" then
    match h : current.childForFieldName "declarator" with
    | some identifier =>
      if identifier.type == "identifier" then some identifier
      else cUnwind identifier
    | none => none
  else if current.type == "identifier" then some current
  else if current.type == "pointer_declarator" || current.type == "reference_declarator" then
    match h : (current.childForFieldName "declarator").or current.children[1]? with
    | some nxt => cUnwind nxt
    | none => none
  else none
termination_by sizeOf current
decreasing_by
  · exact sizeOf_fieldLookup h
  · rcases Option.or_eq_some.mp h with h1 | ⟨_, h1⟩
    · exact sizeOf_fieldLookup h1
    · exact sizeOf_getElem h1

/-- parser.ts lines 167-226: the language-specific part of
`findFunctionName` reached when the initial name-field check fails, ending
with the shared first-identifier-child fallback.  In the javascript branch
the inline identifier scan and the shared fallback perform the same scan,
so they are written as one `firstIdentifierChild`. -/
def findFunctionNameRest (node : SyntaxNode) (grammarName : String) : Option SyntaxNode :=
  if grammarName == "c" || grammarName == "cpp" then
    match node.childForFieldName "declarator" with
    | none => none
    | some declarator =>
      match cUnwind declarator with
      | some result => some result
      | none => firstIdentifierChild node
  else if grammarName == "python" || grammarName == "ruby" then
    node.childForFieldName "name"
  else if grammarName == "javascript" || grammarName == "typescript" || grammarName == "tsx" then
    match node.childForFieldName "name" with
    | some nameNode => some nameNode
    | none => firstIdentifierChild node
  else if grammarName == "java" || grammarName == "c_sharp" then
    node.childForFieldName "name"
  else if grammarName == "rust" then
    node.childForFieldName "name"
  else if grammarName == "go" then
    node.childForFieldName "name"
  else
    firstIdentifierChild node

/-- parser.ts lines 160-227: `findFunctionName`.  First the `name` field,
accepted only when it is an `identifier` node, then the language-specific
handling. -/
def findFunctionName (node : SyntaxNode) (grammarName : String) : Option SyntaxNode :=
  match node.childForFieldName "name" with
  | some nameNode =>
    if nameNode.type == "identifier" then some nameNode
    else findFunctionNameRest node grammarName
  | none => findFunctionNameRest node grammarName

/-- parser.ts lines 140-158: `getFunctionBody`.  The `body` field, then for
the javascript-family grammars a scan for a block or expression child, and
finally the whole node as fallback; every path returns a node. -/
def getFunctionBody (node : SyntaxNode) (grammarName : String) : Option SyntaxNode :=
  match node.childForFieldName "body" with
  | some bodyNode => some bodyNode
  | none =>
    if grammarName == "javascript" || grammarName == "typescript" || grammarName == "tsx" then
      match node.children.find?
          (fun child => child.type == "statement_block" || child.type == "expression") with
      | some child => some child
      | none => some node
    else
      some node

/-- parser.ts lines 109-128: the record pushed by `findFunctions` at a
visited node, or `none` if the node does not match or name/body resolution
fails. -/
def recordOf (grammarName : String) (functionNodeTypes : List String)
    (node : SyntaxNode) : Option FunctionInfo :=
  if functionNodeTypes.contains node.type then
    match getFunctionBody node grammarName, findFunctionName node grammarName with
    | some bodyNode, some nameNode =>
      some { name := nameNode.text
             startLine := bodyNode.startPosition.row
             endLine := bodyNode.endPosition.row
             lineCount := (bodyNode.endPosition.row : Int) - (bodyNode.startPosition.row : Int) + 1
             declarationLine := node.startPosition.row }
    | _, _ => none
  else none

mutual
/-- parser.ts lines 107-136: the recursive `findFunctions` walker.  The
record of the visited node (if any) is emitted first, then the records
found in the children, in order. -/
def findFunctions (grammarName : String) (functionNodeTypes : List String) :
    SyntaxNode → List FunctionInfo
  | .mk ty tx s e fs cs =>
    (recordOf grammarName functionNodeTypes (.mk ty tx s e fs cs)).toList ++
      findFunctionsList grammarName functionNodeTypes cs

/-- parser.ts lines 130-133: the `for (const child of node.children)` loop. -/
def findFunctionsList (grammarName : String) (functionNodeTypes : List String) :
    List SyntaxNode → List FunctionInfo
  | [] => []
  | c :: cs =>
    findFunctions grammarName functionNodeTypes c ++
      findFunctionsList grammarName functionNodeTypes cs
end

mutual
/-- Specification-side pre-order depth-first listing of all nodes of a
tree: the node itself, then the preorder listings of all its children in
order, independent of any matching. -/
def preorder : SyntaxNode → List SyntaxNode
  | .mk ty tx s e fs cs => .mk ty tx s e fs cs :: preorderList cs

def preorderList : List SyntaxNode → List SyntaxNode
  | [] => []
  | c :: cs => preorder c ++ preorderList cs
end

/-- Child span is contained in the parent span (rows). -/
def spanOk (ps pe : Pos) (c : SyntaxNode) : Bool :=
  decide (ps.row ≤ c.startPosition.row) && decide (c.endPosition.row ≤ pe.row)

mutual
/-- Well-formedness guaranteed by tree-sitter for every produced tree:
each node starts no later than it ends, and every field child and ordinary
child lies within its parent's row span. -/
def wellFormed : SyntaxNode → Bool
  | .mk _ _ s e fs cs =>
    decide (s.row ≤ e.row) && wfFields s e fs && wfChildren s e cs

def wfFields (ps pe : Pos) : List (String × SyntaxNode) → Bool
  | [] => true
  | (_, c) :: rest => spanOk ps pe c && wellFormed c && wfFields ps pe rest

def wfChildren (ps pe : Pos) : List SyntaxNode → Bool
  | [] => true
  | c :: rest => spanOk ps pe c && wellFormed c && wfChildren ps pe rest
end

/-- Opaque handle for a loaded tree-sitter grammar. -/
abbrev GrammarHandle := Nat

/-- parser.ts lines 57-60: the state of the `CppParser` class.
`parserInitialized` models whether `this.parser` is non-null (set by
`initialize`). -/
structure CppParser where
  parserInitialized : Bool
  languageCache : List (String × GrammarHandle)
  currentLanguageId : Option String

/-- parser.ts lines 62-65: `initialize` creates the tree-sitter parser. -/
def CppParser.initialize (p : CppParser) : CppParser :=
  { p with parserInitialized := true }

/-- JS `Map.set`: replace the value of an existing key, else append. -/
def cacheSet (cache : List (String × GrammarHandle)) (k : String) (v : GrammarHandle) :
    List (String × GrammarHandle) :=
  if cache.any (fun kv => kv.1 == k) then
    cache.map (fun kv => if kv.1 == k then (k, v) else kv)
  else cache ++ [(k, v)]

/-- parser.ts lines 67-93: `setLanguage`.  The external grammar loader
(`TreeSitter.Language.load` on the grammar's wasm file) is passed as
`load`; `Except.error` models the caught load exception. -/
def CppParser.setLanguage (st : CppParser) (load : String → Except String GrammarHandle)
    (languageId : String) : Bool × CppParser :=
  match LANGUAGE_GRAMMAR_MAP.lookup languageId with
  | none => (false, st)
  | some grammarName =>
    match st.languageCache.lookup grammarName with
    | some _language => (true, { st with currentLanguageId := some languageId })
    | none =>
      match load grammarName with
      | .ok language =>
        (true, { st with
                  languageCache := cacheSet st.languageCache grammarName language,
                  currentLanguageId := some languageId })
      | .error _ => (false, st)

/-- parser.ts lines 95-138: `parseFunctions`.  The external collaborator
`this.parser.parse` is passed as `parse`, returning the root node of the
produced tree or `none` when no tree is produced; in the latter case the
access `tree.rootNode` raises, which the method does not catch.  When the
grammar lookup for the current language id misses, JS indexes the node-type
table with `undefined` and `|| []` yields the empty list; the default
string below plays the role of that absent key. -/
def CppParser.parseFunctions (st : CppParser) (parse : String → Option SyntaxNode)
    (sourceCode : String) : Except String (List FunctionInfo) :=
  if !st.parserInitialized || st.currentLanguageId.isNone then
    .error "Parser not initialized"
  else
    match parse sourceCode with
    | none => .error "TypeError: null parse tree has no rootNode"
    | some rootNode =>
      let grammarName := (LANGUAGE_GRAMMAR_MAP.lookup (st.currentLanguageId.getD "")).getD ""
      let functionNodeTypes := (FUNCTION_NODE_TYPES.lookup grammarName).getD []
      .ok (findFunctions grammarName functionNodeTypes rootNode)

/-- The tree view (functionTreeProvider) reads `func.className` when
grouping.  The `FunctionInfo` interface of parser.ts declares no
`className` property and `parseFunctions` never sets one, so at runtime
the property access always yields `undefined`. -/
def FunctionInfo.className (_f : FunctionInfo) : Option String := none

/-- The two kinds of tree items built by the grouping tree view
(`ClassTreeItem` and `FunctionTreeItem`); icon, color and command data are
host-UI I/O and are not modelled. -/
inductive TreeElement where
  | classItem (className : String) (functions : List FunctionInfo)
  | functionItem (f : FunctionInfo)

/-- JS `Map` push used by `createRootItems`: append to the list of an
existing key, else add the key at the end (insertion order). -/
def groupPush (grouped : List (String × List FunctionInfo)) (key : String)
    (f : FunctionInfo) : List (String × List FunctionInfo) :=
  if grouped.any (fun kv => kv.1 == key) then
    grouped.map (fun kv => if kv.1 == key then (kv.1, kv.2 ++ [f]) else kv)
  else grouped ++ [(key, [f])]

/-- functionTreeProvider `createRootItems`: group the functions by
`className`, emit the class groups first, then the global functions. -/
def createRootItems (functions : List FunctionInfo) : List TreeElement :=
  let acc := functions.foldl
    (fun acc f =>
      match f.className with
      | some cn => (groupPush acc.1 cn f, acc.2)
      | none => (acc.1, acc.2 ++ [f]))
    (([], []) : List (String × List FunctionInfo) × List FunctionInfo)
  acc.1.map (fun kv => TreeElement.classItem kv.1 kv.2) ++
    acc.2.map TreeElement.functionItem

/-- Specification-side model of a single name-resolution strategy
(specification section 4.3). -/
inductive NameStrategy where
  | fieldNameIdent
  | declaratorUnwind
  | fieldNameRaw
  | fieldNameOpt
  | firstIdentChild

/-- Outcome of one strategy: a resolved node, a failure that lets the next
strategy run, or an abort that ends resolution with no name. -/
inductive StratOutcome where
  | success (result : SyntaxNode)
  | failure
  | abort

/-- Semantics of the individual strategies, as implemented:
`fieldNameIdent` accepts the `name` field only when it is an identifier;
`declaratorUnwind` aborts outright when the `declarator` field is absent
and fails (letting the next strategy run) when the unwinding loop stops
without reaching an identifier; `fieldNameRaw` returns the `name` field
unconditionally and aborts when it is absent; `fieldNameOpt` returns the
`name` field when present and fails otherwise; `firstIdentChild` scans the
immediate children for an identifier. -/
def runStrategy : NameStrategy → SyntaxNode → StratOutcome
  | .fieldNameIdent, node =>
    match node.childForFieldName "name" with
    | some nameNode =>
      if nameNode.type == "identifier" then .success nameNode else .failure
    | none => .failure
  | .declaratorUnwind, node =>
    match node.childForFieldName "declarator" with
    | none => .abort
    | some declarator =>
      match cUnwind declarator with
      | some result => .success result
      | none => .failure
  | .fieldNameRaw, node =>
    match node.childForFieldName "name" with
    | some nameNode => .success nameNode
    | none => .abort
  | .fieldNameOpt, node =>
    match node.childForFieldName "name" with
    | some nameNode => .success nameNode
    | none => .failure
  | .firstIdentChild, node =>
    match firstIdentifierChild node with
    | some child => .success child
    | none => .failure

/-- Run a strategy list in order; the first success wins, an abort stops
resolution with no result. -/
def runStrategies : List NameStrategy → SyntaxNode → Option SyntaxNode
  | [], _ => none
  | s :: rest, node =>
    match runStrategy s node with
    | .success result => some result
    | .abort => none
    | .failure => runStrategies rest node

/-- The strategies tried after the initial identifier-checked name field,
per grammar family. -/
def strategiesTail (grammarName : String) : List NameStrategy :=
  if grammarName == "c" || grammarName == "cpp" then
    [.declaratorUnwind, .firstIdentChild]
  else if grammarName == "python" || grammarName == "ruby" then
    [.fieldNameRaw]
  else if grammarName == "javascript" || grammarName == "typescript" || grammarName == "tsx" then
    [.fieldNameOpt, .firstIdentChild]
  else if grammarName == "java" || grammarName == "c_sharp" then
    [.fieldNameRaw]
  else if grammarName == "rust" then
    [.fieldNameRaw]
  else if grammarName == "go" then
    [.fieldNameRaw]
  else
    [.firstIdentChild]

/-- The full ordered strategy list of a grammar: every family first tries
the identifier-checked `name` field. -/
def strategiesFor (grammarName : String) : List NameStrategy :=
  NameStrategy.fieldNameIdent :: strategiesTail grammarName

/-- The per-grammar set of block-like or expression-like child types the
body resolver scans for; empty for all grammars except the
javascript family. -/
def bodyChildTypes (grammarName : String) : List String :=
  if grammarName == "javascript" || grammarName == "typescript" || grammarName == "tsx" then
    ["statement_block", "expression"]
  else []

/-! Concrete syntax trees used as witnesses, modelled on the trees
tree-sitter produces for the scenario sources of the specification. -/

/-- Scenario A: the C source `int add(int a, int b)` with a body on rows
0-2; the identifier node of `add`. -/
def addIdNode : SyntaxNode := .mk "identifier" "add" ⟨0, 4⟩ ⟨0, 7⟩ [] []

def addParams : SyntaxNode := .mk "parameter_list" "(int a, int b)" ⟨0, 7⟩ ⟨0, 21⟩ [] []

def addDeclarator : SyntaxNode :=
  .mk "function_declarator" "add(int a, int b)" ⟨0, 4⟩ ⟨0, 21⟩
    [("declarator", addIdNode), ("parameters", addParams)] [addIdNode, addParams]

def addType : SyntaxNode := .mk "primitive_type" "int" ⟨0, 0⟩ ⟨0, 3⟩ [] []

def addBody : SyntaxNode := .mk "compound_statement" "" ⟨0, 22⟩ ⟨2, 1⟩ [] []

def addDef : SyntaxNode :=
  .mk "function_definition" "" ⟨0, 0⟩ ⟨2, 1⟩
    [("type", addType), ("declarator", addDeclarator), ("body", addBody)]
    [addType, addDeclarator, addBody]

def addRoot : SyntaxNode := .mk "translation_unit" "" ⟨0, 0⟩ ⟨2, 1⟩ [] [addDef]

/-- The record `parseFunctions` emits for scenario A. -/
def addRec : FunctionInfo :=
  { name := "add", startLine := 0, endLine := 2, lineCount := 3, declarationLine := 0 }

/-- A C `function_definition` node with no `name` field and no
`declarator` field but with an identifier child. -/
def orphanId : SyntaxNode := .mk "identifier" "f" ⟨0, 4⟩ ⟨0, 5⟩ [] []

def orphanDef : SyntaxNode := .mk "function_definition" "" ⟨0, 0⟩ ⟨1, 1⟩ [] [orphanId]

/-- Scenario D: a bare javascript function literal with no name field and
no identifier child. -/
def anonParams : SyntaxNode := .mk "formal_parameters" "()" ⟨0, 9⟩ ⟨0, 11⟩ [] []

def anonBlock : SyntaxNode := .mk "statement_block" "" ⟨0, 12⟩ ⟨0, 14⟩ [] []

def anonFunction : SyntaxNode :=
  .mk "function" "" ⟨0, 0⟩ ⟨0, 14⟩ [("body", anonBlock)] [anonParams, anonBlock]

/-- A method `m` inside class `C` inside namespace `N` (C++), rows 0-5. -/
def methodId : SyntaxNode := .mk "identifier" "m" ⟨2, 9⟩ ⟨2, 10⟩ [] []

def methodDeclarator : SyntaxNode :=
  .mk "function_declarator" "m()" ⟨2, 9⟩ ⟨2, 12⟩ [("declarator", methodId)] [methodId]

def methodBody : SyntaxNode := .mk "compound_statement" "" ⟨2, 13⟩ ⟨3, 5⟩ [] []

def methodDef : SyntaxNode :=
  .mk "function_definition" "" ⟨2, 4⟩ ⟨3, 5⟩
    [("declarator", methodDeclarator), ("body", methodBody)] [methodDeclarator, methodBody]

def classId : SyntaxNode := .mk "type_identifier" "C" ⟨1, 8⟩ ⟨1, 9⟩ [] []

def classBody : SyntaxNode := .mk "field_declaration_list" "" ⟨1, 10⟩ ⟨4, 3⟩ [] [methodDef]

def classDef : SyntaxNode :=
  .mk "class_specifier" "" ⟨1, 2⟩ ⟨4, 3⟩
    [("name", classId), ("body", classBody)] [classId, classBody]

def nsId : SyntaxNode := .mk "namespace_identifier" "N" ⟨0, 10⟩ ⟨0, 11⟩ [] []

def nsBody : SyntaxNode := .mk "declaration_list" "" ⟨0, 12⟩ ⟨5, 1⟩ [] [classDef]

def nsDef : SyntaxNode :=
  .mk "namespace_definition" "" ⟨0, 0⟩ ⟨5, 1⟩ [("name", nsId), ("body", nsBody)] [nsId, nsBody]

def nestedRoot : SyntaxNode := .mk "translation_unit" "" ⟨0, 0⟩ ⟨5, 1⟩ [] [nsDef]

/-- The single record `parseFunctions` emits for the nested method tree. -/
def methodRec : FunctionInfo :=
  { name := "m", startLine := 2, endLine := 3, lineCount := 2, declarationLine := 2 }

/-- A grammar loader that always fails. -/
def failLoad : String → Except String GrammarHandle :=
  fun _ => Except.error "load failed"

/-- A parser state with the javascript grammar already cached. -/
def cachedJs : CppParser :=
  { parserInitialized := true, languageCache := [("javascript", 0)],
    currentLanguageId := some "javascript" }

/-- The state of a freshly constructed `CppParser` before `initialize`. -/
def uninitialized : CppParser :=
  { parserInitialized := false, languageCache := [], currentLanguageId := none }

/-- An initialized parser state with the C language selected. -/
def readyC : CppParser :=
  { parserInitialized := true, languageCache := [("c", 0)], currentLanguageId := some "c" }

/-- Another initialized parser state with the C language selected but a
different grammar cache. -/
def readyC2 : CppParser :=
  { parserInitialized := true, languageCache := [], currentLanguageId := some "c" }

/-- An initialized parser state with the json language selected. -/
def readyJson : CppParser :=
  { parserInitialized := true, languageCache := [("json", 0)], currentLanguageId := some "json" }

/-! Structural helper lemmas. -/

theorem syntaxNode_strong_ind (P : SyntaxNode → Prop)
    (h : ∀ n, (∀ m, sizeOf m < sizeOf n → P m) → P n) (n : SyntaxNode) : P n := by
  have W : ∀ k, ∀ m : SyntaxNode, sizeOf m < k → P m := by
    intro k
    induction k with
    | zero => intro m hm; omega
    | succ k ih => intro m hm; exact h m (fun p hp => ih p (by omega))
  exact h n (fun m hm => W (sizeOf n) m hm)

theorem findFunctions_unfold (g : String) (t : List String) (n : SyntaxNode) :
    findFunctions g t n =
      (recordOf g t n).toList ++ findFunctionsList g t n.children := by
  cases n
  rfl

theorem preorder_unfold (n : SyntaxNode) :
    preorder n = n :: preorderList n.children := by
  cases n
  rfl

theorem self_mem_preorder (n : SyntaxNode) : n ∈ preorder n := by
  rw [preorder_unfold]
  exact List.mem_cons_self n _

theorem mem_preorderList {n : SyntaxNode} {l : List SyntaxNode} :
    n ∈ preorderList l ↔ ∃ c ∈ l, n ∈ preorder c := by
  induction l with
  | nil => simp [preorderList]
  | cons c cs ih => simp [preorderList, List.mem_append, ih]

theorem findFunctionsList_eq (g : String) (t : List String) (l : List SyntaxNode)
    (ih : ∀ c ∈ l, findFunctions g t c = (preorder c).filterMap (recordOf g t)) :
    findFunctionsList g t l = (preorderList l).filterMap (recordOf g t) := by
  induction l with
  | nil => simp [findFunctionsList, preorderList]
  | cons c cs ihl =>
    simp only [findFunctionsList, preorderList, List.filterMap_append]
    rw [ih c (by simp), ihl (fun d hd => ih d (by simp [hd]))]

theorem findFunctions_eq_filterMap (g : String) (t : List String) (n : SyntaxNode) :
    findFunctions g t n = (preorder n).filterMap (recordOf g t) := by
  refine syntaxNode_strong_ind
    (fun m => findFunctions g t m = (preorder m).filterMap (recordOf g t)) ?_ n
  intro m IH
  rw [findFunctions_unfold, preorder_unfold]
  have hrec := findFunctionsList_eq g t m.children (fun c hc => IH c (sizeOf_mem_children hc))
  cases hro : recordOf g t m with
  | none => simp [hro, hrec]
  | some r => simp [hro, hrec]

/-! Well-formedness lemmas. -/

theorem wellFormed_parts {n : SyntaxNode} (h : wellFormed n = true) :
    n.startPosition.row ≤ n.endPosition.row ∧
    wfFields n.startPosition n.endPosition n.fields = true ∧
    wfChildren n.startPosition n.endPosition n.children = true := by
  cases n with
  | mk t x s e fs cs =>
    simp only [wellFormed, Bool.and_eq_true, decide_eq_true_eq] at h
    exact ⟨h.1.1, h.1.2, h.2⟩

theorem spanOk_le {ps pe : Pos} {c : SyntaxNode} (h : spanOk ps pe c = true) :
    ps.row ≤ c.startPosition.row ∧ c.endPosition.row ≤ pe.row := by
  simpa [spanOk, Bool.and_eq_true, decide_eq_true_eq] using h

theorem wfChildren_mem {ps pe : Pos} {l : List SyntaxNode} {c : SyntaxNode}
    (hwf : wfChildren ps pe l = true) (hm : c ∈ l) :
    spanOk ps pe c = true ∧ wellFormed c = true := by
  induction l with
  | nil => simp at hm
  | cons d rest ih =>
    simp only [wfChildren, Bool.and_eq_true] at hwf
    rcases List.mem_cons.mp hm with rfl | hm2
    · exact ⟨hwf.1.1, hwf.1.2⟩
    · exact ih hwf.2 hm2

theorem wfFields_mem {ps pe : Pos} {l : List (String × SyntaxNode)} {k : String} {c : SyntaxNode}
    (hwf : wfFields ps pe l = true) (hm : (k, c) ∈ l) :
    spanOk ps pe c = true ∧ wellFormed c = true := by
  induction l with
  | nil => simp at hm
  | cons d rest ih =>
    obtain ⟨dk, dc⟩ := d
    simp only [wfFields, Bool.and_eq_true] at hwf
    rcases List.mem_cons.mp hm with heq | hm2
    · rw [Prod.mk.injEq] at heq
      obtain ⟨rfl, rfl⟩ := heq
      exact ⟨hwf.1.1, hwf.1.2⟩
    · exact ih hwf.2 hm2

theorem wellFormed_child {n c : SyntaxNode} (hwf : wellFormed n = true)
    (hc : c ∈ n.children) :
    spanOk n.startPosition n.endPosition c = true ∧ wellFormed c = true :=
  wfChildren_mem (wellFormed_parts hwf).2.2 hc

theorem wellFormed_field {n c : SyntaxNode} {fname : String} (hwf : wellFormed n = true)
    (hc : n.childForFieldName fname = some c) :
    spanOk n.startPosition n.endPosition c = true ∧ wellFormed c = true := by
  obtain ⟨k, hm⟩ := fieldLookup_mem hc
  exact wfFields_mem (wellFormed_parts hwf).2.1 hm

theorem wellFormed_of_mem_preorder (root : SyntaxNode) :
    wellFormed root = true → ∀ n ∈ preorder root, wellFormed n = true := by
  refine syntaxNode_strong_ind
    (fun root => wellFormed root = true → ∀ n ∈ preorder root, wellFormed n = true) ?_ root
  intro r IH hwf n hn
  rw [preorder_unfold] at hn
  rcases List.mem_cons.mp hn with rfl | hn2
  · exact hwf
  · obtain ⟨c, hc, hnc⟩ := mem_preorderList.mp hn2
    exact IH c (sizeOf_mem_children hc) (wellFormed_child hwf hc).2 n hnc

/-! Body-resolution lemmas. -/

theorem getFunctionBody_isSome (node : SyntaxNode) (g : String) :
    (getFunctionBody node g).isSome = true := by
  rw [getFunctionBody]
  split
  · rfl
  · split
    · split
      · rfl
      · rfl
    · rfl

theorem getFunctionBody_span {n b : SyntaxNode} {g : String}
    (hwf : wellFormed n = true) (h : getFunctionBody n g = some b) :
    n.startPosition.row ≤ b.startPosition.row ∧
    b.endPosition.row ≤ n.endPosition.row ∧
    b.startPosition.row ≤ b.endPosition.row := by
  have hspan : ∀ {c : SyntaxNode}, spanOk n.startPosition n.endPosition c = true →
      wellFormed c = true →
      n.startPosition.row ≤ c.startPosition.row ∧
      c.endPosition.row ≤ n.endPosition.row ∧
      c.startPosition.row ≤ c.endPosition.row := by
    intro c hs hw
    obtain ⟨h1, h2⟩ := spanOk_le hs
    exact ⟨h1, h2, (wellFormed_parts hw).1⟩
  cases hb : n.childForFieldName "body" with
  | some bodyNode =>
    simp only [getFunctionBody, hb, Option.some.injEq] at h
    subst h
    exact hspan (wellFormed_field hwf hb).1 (wellFormed_field hwf hb).2
  | none =>
    simp only [getFunctionBody, hb] at h
    by_cases hg : (g == "javascript" || g == "typescript" || g == "tsx") = true
    · rw [hg] at h
      simp only [if_pos rfl] at h
      cases hf : n.children.find?
          (fun child => child.type == "statement_block" || child.type == "expression") with
      | some c =>
        rw [hf] at h
        injection h with h
        subst h
        have hcmem := List.mem_of_find?_eq_some hf
        exact hspan (wellFormed_child hwf hcmem).1 (wellFormed_child hwf hcmem).2
      | none =>
        rw [hf] at h
        injection h with h
        subst h
        exact ⟨le_refl _, le_refl _, (wellFormed_parts hwf).1⟩
    · rw [if_neg hg] at h
      injection h with h
      subst h
      exact ⟨le_refl _, le_refl _, (wellFormed_parts hwf).1⟩

/-! Record-assembly lemmas. -/

theorem recordOf_eq_some {g : String} {t : List String} {n : SyntaxNode} {info : FunctionInfo}
    (h : recordOf g t n = some info) :
    t.contains n.type = true ∧
    ∃ bodyNode nameNode,
      getFunctionBody n g = some bodyNode ∧
      findFunctionName n g = some nameNode ∧
      info = { name := nameNode.text
               startLine := bodyNode.startPosition.row
               endLine := bodyNode.endPosition.row
               lineCount := (bodyNode.endPosition.row : Int) -
                 (bodyNode.startPosition.row : Int) + 1
               declarationLine := n.startPosition.row } := by
  by_cases hc : t.contains n.type = true
  · refine ⟨hc, ?_⟩
    rw [recordOf] at h
    rw [hc] at h
    simp only [if_pos rfl] at h
    cases hgb : getFunctionBody n g with
    | none => rw [hgb] at h; exact absurd h (by simp)
    | some bodyNode =>
      cases hfn : findFunctionName n g with
      | none => rw [hgb, hfn] at h; exact absurd h (by simp)
      | some nameNode =>
        rw [hgb, hfn] at h
        injection h with h
        exact ⟨bodyNode, nameNode, rfl, rfl, h.symm⟩
  · rw [recordOf, if_neg hc] at h
    exact absurd h (by simp)

theorem recordOf_none_of_name_none {g : String} {t : List String} {n : SyntaxNode}
    (h : findFunctionName n g = none) : recordOf g t n = none := by
  rw [recordOf]
  split
  · rw [h]
    cases getFunctionBody n g <;> rfl
  · rfl

theorem recordOf_nil_types (g : String) (n : SyntaxNode) : recordOf g [] n = none := by
  rw [recordOf]
  simp

theorem findFunctionsList_nil_types (g : String) (l : List SyntaxNode)
    (ih : ∀ c ∈ l, findFunctions g [] c = []) : findFunctionsList g [] l = [] := by
  induction l with
  | nil => rfl
  | cons c cs ihl =>
    simp [findFunctionsList, ih c (by simp), ihl (fun d hd => ih d (by simp [hd]))]

theorem findFunctions_nil_types (g : String) (n : SyntaxNode) : findFunctions g [] n = [] := by
  refine syntaxNode_strong_ind (fun m => findFunctions g [] m = []) ?_ n
  intro m IH
  rw [findFunctions_unfold, recordOf_nil_types]
  simpa using findFunctionsList_nil_types g m.children (fun c hc => IH c (sizeOf_mem_children hc))

/-! List scanning lemmas. -/

theorem find?_congr_pred {α : Type} {p q : α → Bool} (l : List α) (h : ∀ a, p a = q a) :
    l.find? p = l.find? q := by
  induction l with
  | nil => rfl
  | cons a as ih => simp [List.find?_cons, h a, ih]

/-! Grouping lemma for the tree view. -/

theorem foldl_globals (fns : List FunctionInfo) (acc2 : List FunctionInfo) :
    fns.foldl
      (fun (acc : List (String × List FunctionInfo) × List FunctionInfo) f =>
        (acc.1, acc.2 ++ [f]))
      ([], acc2) = ([], acc2 ++ fns) := by
  induction fns generalizing acc2 with
  | nil => simp
  | cons f fs ih => simp [ih]

theorem createRootItems_eq_map (functions : List FunctionInfo) :
    createRootItems functions = functions.map TreeElement.functionItem := by
  simp only [createRootItems, FunctionInfo.className]
  rw [foldl_globals]
  simp

/-! Evaluation of the walker on the concrete witness trees. -/

theorem cUnwind_addDeclarator : cUnwind addDeclarator = some addIdNode := by
  rw [cUnwind]
  rfl

theorem findFunctionName_addDef : findFunctionName addDef "c" = some addIdNode := by
  simp [findFunctionName, findFunctionNameRest, addDef, SyntaxNode.childForFieldName,
    SyntaxNode.fields, fieldLookup, cUnwind_addDeclarator]

theorem recordOf_addDef : recordOf "c" ["function_definition"] addDef = some addRec := by
  unfold recordOf
  rw [findFunctionName_addDef]
  rfl

theorem findFunctions_addRoot :
    findFunctions "c" ["function_definition"] addRoot = [addRec] := by
  have h1 : findFunctions "c" ["function_definition"] addDef = [addRec] := by
    rw [findFunctions_unfold, recordOf_addDef]
    rfl
  rw [findFunctions_unfold]
  rw [show recordOf "c" ["function_definition"] addRoot = none from rfl]
  show findFunctions "c" ["function_definition"] addDef ++ ([] : List FunctionInfo) = [addRec]
  rw [h1]
  rfl

theorem cUnwind_methodDeclarator : cUnwind methodDeclarator = some methodId := by
  rw [cUnwind]
  rfl

theorem findFunctionName_methodDef : findFunctionName methodDef "cpp" = some methodId := by
  simp [findFunctionName, findFunctionNameRest, methodDef, SyntaxNode.childForFieldName,
    SyntaxNode.fields, fieldLookup, cUnwind_methodDeclarator]

theorem recordOf_methodDef :
    recordOf "cpp" ["function_definition"] methodDef = some methodRec := by
  unfold recordOf
  rw [findFunctionName_methodDef]
  rfl

theorem findFunctions_nestedRoot :
    findFunctions "cpp" ["function_definition"] nestedRoot = [methodRec] := by
  have h1 : findFunctions "cpp" ["function_definition"] methodDef = [methodRec] := by
    rw [findFunctions_unfold, recordOf_methodDef]
    rfl
  have h2 : findFunctions "cpp" ["function_definition"] classBody = [methodRec] := by
    rw [findFunctions_unfold]
    rw [show recordOf "cpp" ["function_definition"] classBody = none from rfl]
    show findFunctions "cpp" ["function_definition"] methodDef ++ ([] : List FunctionInfo)
      = [methodRec]
    rw [h1]
    rfl
  have h3 : findFunctions "cpp" ["function_definition"] classDef = [methodRec] := by
    rw [findFunctions_unfold]
    rw [show recordOf "cpp" ["function_definition"] classDef = none from rfl]
    show findFunctions "cpp" ["function_definition"] classId ++
      (findFunctions "cpp" ["function_definition"] classBody ++ ([] : List FunctionInfo))
      = [methodRec]
    rw [show findFunctions "cpp" ["function_definition"] classId = [] from rfl, h2]
    rfl
  have h4 : findFunctions "cpp" ["function_definition"] nsBody = [methodRec] := by
    rw [findFunctions_unfold]
    rw [show recordOf "cpp" ["function_definition"] nsBody = none from rfl]
    show findFunctions "cpp" ["function_definition"] classDef ++ ([] : List FunctionInfo)
      = [methodRec]
    rw [h3]
    rfl
  have h5 : findFunctions "cpp" ["function_definition"] nsDef = [methodRec] := by
    rw [findFunctions_unfold]
    rw [show recordOf "cpp" ["function_definition"] nsDef = none from rfl]
    show findFunctions "cpp" ["function_definition"] nsId ++
      (findFunctions "cpp" ["function_definition"] nsBody ++ ([] : List FunctionInfo))
      = [methodRec]
    rw [show findFunctions "cpp" ["function_definition"] nsId = [] from rfl, h4]
    rfl
  rw [findFunctions_unfold]
  rw [show recordOf "cpp" ["function_definition"] nestedRoot = none from rfl]
  show findFunctions "cpp" ["function_definition"] nsDef ++ ([] : List FunctionInfo) = [methodRec]
  rw [h5]
  rfl

/-! Claim theorems. -/

/-- C1: for every `FunctionInfo` record emitted by the walker of
`parseFunctions` on a well-formed tree, `startLine` and `endLine` equal the
resolved body node's start and end rows, `declarationLine` equals the
matched function node's own start row, `lineCount` equals
`endLine - startLine + 1`, and consequently
`declarationLine <= startLine <= endLine` and `lineCount >= 1`. -/
theorem emitted_record_invariants (grammarName : String) (functionNodeTypes : List String)
    (root : SyntaxNode) (hwf : wellFormed root = true) :
    ∀ info ∈ findFunctions grammarName functionNodeTypes root,
      ∃ node bodyNode nameNode,
        node ∈ preorder root ∧
        functionNodeTypes.contains node.type = true ∧
        getFunctionBody node grammarName = some bodyNode ∧
        findFunctionName node grammarName = some nameNode ∧
        info.name = nameNode.text ∧
        info.startLine = bodyNode.startPosition.row ∧
        info.endLine = bodyNode.endPosition.row ∧
        info.declarationLine = node.startPosition.row ∧
        info.lineCount = (info.endLine : Int) - (info.startLine : Int) + 1 ∧
        info.declarationLine ≤ info.startLine ∧
        info.startLine ≤ info.endLine ∧
        1 ≤ info.lineCount := by
  intro info hinfo
  rw [findFunctions_eq_filterMap] at hinfo
  obtain ⟨node, hmem, hrec⟩ := List.mem_filterMap.mp hinfo
  obtain ⟨hcont, bodyNode, nameNode, hgb, hfn, hinfoeq⟩ := recordOf_eq_some hrec
  have hwfn := wellFormed_of_mem_preorder root hwf node hmem
  obtain ⟨h1, h2, h3⟩ := getFunctionBody_span hwfn hgb
  subst hinfoeq
  refine ⟨node, bodyNode, nameNode, hmem, hcont, hgb, hfn, rfl, rfl, rfl, rfl, rfl,
    ?_, ?_, ?_⟩
  · simpa using h1
  · simpa using h3
  · simp only
    omega

/-- Witness for C1: the scenario-A record of the C function `add` with a
body on rows 0-2 satisfies all the stated equalities and inequalities. -/
theorem emitted_record_invariants_witness :
    wellFormed addRoot = true ∧
    ∃ node bodyNode nameNode,
      node ∈ preorder addRoot ∧
      (["function_definition"].contains node.type) = true ∧
      getFunctionBody node "c" = some bodyNode ∧
      findFunctionName node "c" = some nameNode ∧
      addRec.name = nameNode.text ∧
      addRec.startLine = bodyNode.startPosition.row ∧
      addRec.endLine = bodyNode.endPosition.row ∧
      addRec.declarationLine = node.startPosition.row ∧
      addRec.lineCount = (addRec.endLine : Int) - (addRec.startLine : Int) + 1 ∧
      addRec.declarationLine ≤ addRec.startLine ∧
      addRec.startLine ≤ addRec.endLine ∧
      1 ≤ addRec.lineCount :=
  ⟨rfl, emitted_record_invariants "c" ["function_definition"] addRoot rfl addRec
    (by rw [findFunctions_addRoot]; exact List.mem_singleton.mpr rfl)⟩

/-- C2 (amended): name resolution equals running the per-family strategy
lists in order with first success winning, where the lists are: for c/cpp,
identifier-checked name field, then declarator unwinding that aborts
resolution outright when the `declarator` field is absent (without trying
the child scan) and descends only through function-declarators and
pointer/reference wrappers, then the first-identifier-child scan; for
python, ruby, java, c_sharp, rust and go, identifier-checked name field,
then the raw name field returned unconditionally (aborting with no name
when absent, with no child scan); for the javascript family,
identifier-checked name field, then the name field if present, then the
first-identifier-child scan; for every other grammar, identifier-checked
name field, then the first-identifier-child scan. -/
theorem name_resolution_strategy_equiv (node : SyntaxNode) (grammarName : String) :
    findFunctionName node grammarName = runStrategies (strategiesFor grammarName) node := by
  have hrest : findFunctionNameRest node grammarName =
      runStrategies (strategiesTail grammarName) node := by
    unfold findFunctionNameRest strategiesTail
    by_cases h1 : (grammarName == "c" || grammarName == "cpp") = true
    · rw [h1]
      simp only [if_pos]
      cases hd : node.childForFieldName "declarator" with
      | none => simp [runStrategies, runStrategy, hd]
      | some d =>
        cases hu : cUnwind d with
        | some r => simp [runStrategies, runStrategy, hd, hu]
        | none =>
          cases hf : firstIdentifierChild node <;>
            simp [runStrategies, runStrategy, hd, hu, hf]
    · rw [if_neg h1, if_neg h1]
      by_cases h2 : (grammarName == "python" || grammarName == "ruby") = true
      · rw [if_pos h2, if_pos h2]
        cases hn : node.childForFieldName "name" <;>
          simp [runStrategies, runStrategy, hn]
      · rw [if_neg h2, if_neg h2]
        by_cases h3 : (grammarName == "javascript" || grammarName == "typescript" ||
            grammarName == "tsx") = true
        · rw [if_pos h3, if_pos h3]
          cases hn : node.childForFieldName "name" with
          | some nm => simp [runStrategies, runStrategy, hn]
          | none =>
            cases hf : firstIdentifierChild node <;>
              simp [runStrategies, runStrategy, hn, hf]
        · rw [if_neg h3, if_neg h3]
          by_cases h4 : (grammarName == "java" || grammarName == "c_sharp") = true
          · rw [if_pos h4, if_pos h4]
            cases hn : node.childForFieldName "name" <;>
              simp [runStrategies, runStrategy, hn]
          · rw [if_neg h4, if_neg h4]
            by_cases h5 : (grammarName == "rust") = true
            · rw [if_pos h5, if_pos h5]
              cases hn : node.childForFieldName "name" <;>
                simp [runStrategies, runStrategy, hn]
            · rw [if_neg h5, if_neg h5]
              by_cases h6 : (grammarName == "go") = true
              · rw [if_pos h6, if_pos h6]
                cases hn : node.childForFieldName "name" <;>
                  simp [runStrategies, runStrategy, hn]
              · rw [if_neg h6, if_neg h6]
                cases hf : firstIdentifierChild node <;>
                  simp [runStrategies, runStrategy, hf]
  unfold findFunctionName strategiesFor
  cases hn : node.childForFieldName "name" with
  | some nameNode =>
    by_cases hi : (nameNode.type == "identifier") = true
    · simp [runStrategies, runStrategy, hn, hi]
    · simp [runStrategies, runStrategy, hn, hi, hrest]
  | none => simp [runStrategies, runStrategy, hn, hrest]

/-- C2 counterexample: on a C `function_definition` node carrying no
`name` field and no `declarator` field but having an identifier child,
the claimed strategy order would return the identifier child via the
first-identifier-child scan, yet `findFunctionName` returns no name: when
the `declarator` field is absent the c/cpp branch returns null without
ever trying the child scan. -/
theorem name_resolution_order_counterexample :
    findFunctionName orphanDef "c" = none ∧
    firstIdentifierChild orphanDef = some orphanId :=
  ⟨rfl, rfl⟩

/-- C3: body resolution tries, in order, the node's `body` field (returned
directly when present); otherwise the first immediate child whose type is
in the grammar's declared block-like/expression-like set (the javascript
family declares statement blocks and expressions, every other grammar
declares the empty set), defaulting to the whole matched node; so body
resolution always succeeds and no candidate is ever dropped for lack of a
resolvable body. -/
theorem body_resolution_order :
    (∀ (node : SyntaxNode) (grammarName : String) (b : SyntaxNode),
      node.childForFieldName "body" = some b → getFunctionBody node grammarName = some b) ∧
    (∀ (node : SyntaxNode) (grammarName : String),
      node.childForFieldName "body" = none →
      getFunctionBody node grammarName =
        some ((node.children.find?
          (fun child => (bodyChildTypes grammarName).contains child.type)).getD node)) ∧
    (∀ (node : SyntaxNode) (grammarName : String),
      (getFunctionBody node grammarName).isSome = true) := by
  refine ⟨?_, ?_, fun node g => getFunctionBody_isSome node g⟩
  · intro node g b hb
    simp [getFunctionBody, hb]
  · intro node g hb
    simp only [getFunctionBody, hb]
    by_cases hg : (g == "javascript" || g == "typescript" || g == "tsx") = true
    · rw [hg]
      simp only [if_pos]
      have hpred : ∀ child : SyntaxNode,
          (child.type == "statement_block" || child.type == "expression")
            = (bodyChildTypes g).contains child.type := by
        intro child
        simp only [bodyChildTypes, hg, if_pos]
        rw [Bool.eq_iff_iff]
        simp
      rw [find?_congr_pred node.children hpred]
      cases hf : node.children.find?
          (fun child => (bodyChildTypes g).contains child.type) <;> simp [hf]
    · rw [if_neg hg]
      have hempty : bodyChildTypes g = [] := by simp [bodyChildTypes, hg]
      have hnone : node.children.find?
          (fun child => (bodyChildTypes g).contains child.type) = none := by
        rw [hempty]
        simp [List.find?_eq_none]
      rw [hnone]
      rfl

/-- Witness for C3: the C function node resolves its `body` field, a C
node without a `body` field falls through to itself (its declared scan set
being empty), and body resolution is total. -/
theorem body_resolution_order_witness :
    getFunctionBody addDef "c" = some addBody ∧
    getFunctionBody orphanDef "c" = some orphanDef ∧
    (getFunctionBody anonFunction "javascript").isSome = true := by
  refine ⟨body_resolution_order.1 addDef "c" addBody rfl, ?_,
    body_resolution_order.2.2 anonFunction "javascript"⟩
  rw [body_resolution_order.2.1 orphanDef "c" rfl]
  rfl

/-- C4: the walker of `parseFunctions` performs a pre-order depth-first
traversal recursing into all children of every node regardless of whether
the node matched, and the output sequence equals, in order, the records of
the matched nodes in traversal order. -/
theorem traversal_is_preorder (grammarName : String) (functionNodeTypes : List String)
    (root : SyntaxNode) :
    findFunctions grammarName functionNodeTypes root =
      (preorder root).filterMap (recordOf grammarName functionNodeTypes) :=
  findFunctions_eq_filterMap grammarName functionNodeTypes root

/-- C5: a function-like node whose name cannot be resolved under any
strategy produces no output record at all: its record is `none` and the
walker emits exactly the records found in its children. -/
theorem unresolved_name_drops_candidate (grammarName : String)
    (functionNodeTypes : List String) (node : SyntaxNode)
    (hname : findFunctionName node grammarName = none) :
    recordOf grammarName functionNodeTypes node = none ∧
    findFunctions grammarName functionNodeTypes node =
      findFunctionsList grammarName functionNodeTypes node.children := by
  have hrec := recordOf_none_of_name_none (t := functionNodeTypes) hname
  refine ⟨hrec, ?_⟩
  rw [findFunctions_unfold, hrec]
  rfl

/-- Witness for C5: scenario D, a bare javascript function literal with no
name field and no identifier child, yields zero records. -/
theorem unresolved_name_drops_candidate_witness :
    findFunctionName anonFunction "javascript" = none ∧
    findFunctions "javascript"
      ((FUNCTION_NODE_TYPES.lookup "javascript").getD []) anonFunction = [] := by
  refine ⟨rfl, ?_⟩
  rw [(unresolved_name_drops_candidate "javascript"
    ((FUNCTION_NODE_TYPES.lookup "javascript").getD []) anonFunction rfl).2]
  rfl

/-- C6 counterexample: the method `m` inside class `C` inside namespace
`N` is reported exactly once, but its emitted record carries no enclosing
scope: the `FunctionInfo` interface has no enclosing-scope (`className`)
property, the property access used by the grouping view always yields
undefined, and the grouping view therefore files the method as a global
function instead of under a class item named `C`. -/
theorem nested_method_scope_counterexample :
    findFunctions "cpp" ((FUNCTION_NODE_TYPES.lookup "cpp").getD []) nestedRoot = [methodRec] ∧
    methodRec.className = none ∧
    createRootItems [methodRec] = [TreeElement.functionItem methodRec] := by
  refine ⟨?_, rfl, rfl⟩
  exact findFunctions_nestedRoot

/-- C6 (amended): a method defined inside a class inside a namespace is
reported exactly once, but no enclosing scope is ever attached: every
record's `className` is absent (the parser never sets one and the
interface declares none), so the grouping view places every function at
the root as a global function. -/
theorem nested_method_reported_once_without_scope :
    findFunctions "cpp" ((FUNCTION_NODE_TYPES.lookup "cpp").getD []) nestedRoot = [methodRec] ∧
    (∀ f : FunctionInfo, f.className = none) ∧
    (∀ functions : List FunctionInfo,
      createRootItems functions = functions.map TreeElement.functionItem) :=
  ⟨findFunctions_nestedRoot, fun _ => rfl, createRootItems_eq_map⟩

/-- C7: `setLanguage` memoizes loaded grammars by grammar name: when the
grammar mapped from the language id is already cached the call succeeds
with no use of the loader at all (so a grammar loaded for one language id
is reused by any other id mapping to the same grammar, e.g.
javascriptreact reusing javascript); an unknown language id returns false
with the state unchanged; and a grammar load failure returns false with
the state unchanged, not a fatal error. -/
theorem set_language_memoization_and_failures :
    (∀ (st : CppParser) (languageId grammarName : String) (lang : GrammarHandle),
      LANGUAGE_GRAMMAR_MAP.lookup languageId = some grammarName →
      st.languageCache.lookup grammarName = some lang →
      ∀ load, st.setLanguage load languageId =
        (true, { st with currentLanguageId := some languageId })) ∧
    (∀ (st : CppParser) (load : String → Except String GrammarHandle) (languageId : String),
      LANGUAGE_GRAMMAR_MAP.lookup languageId = none →
      st.setLanguage load languageId = (false, st)) ∧
    (∀ (st : CppParser) (load : String → Except String GrammarHandle)
        (languageId grammarName msg : String),
      LANGUAGE_GRAMMAR_MAP.lookup languageId = some grammarName →
      st.languageCache.lookup grammarName = none →
      load grammarName = Except.error msg →
      st.setLanguage load languageId = (false, st)) := by
  refine ⟨?_, ?_, ?_⟩
  · intro st languageId grammarName lang hmap hcache load
    simp [CppParser.setLanguage, hmap, hcache]
  · intro st load languageId hmap
    simp [CppParser.setLanguage, hmap]
  · intro st load languageId grammarName msg hmap hcache hload
    simp [CppParser.setLanguage, hmap, hcache, hload]

/-- Witness for C7: with the javascript grammar cached, selecting
javascriptreact succeeds even under a loader that always fails; an unknown
language id and a failing load both return false. -/
theorem set_language_memoization_witness :
    cachedJs.setLanguage failLoad "javascriptreact" =
      (true, { cachedJs with currentLanguageId := some "javascriptreact" }) ∧
    cachedJs.setLanguage failLoad "haskell" = (false, cachedJs) ∧
    cachedJs.setLanguage failLoad "c" = (false, cachedJs) :=
  ⟨set_language_memoization_and_failures.1 cachedJs "javascriptreact" "javascript" 0
      rfl rfl failLoad,
   set_language_memoization_and_failures.2.1 cachedJs failLoad "haskell" rfl,
   set_language_memoization_and_failures.2.2 cachedJs failLoad "c" "c" "load failed"
      rfl rfl rfl⟩

/-- C8: for a fixed language id and a fixed parsed tree for the source
text, `parseFunctions` returns identical record sequences regardless of
any other state (grammar cache contents, loader behavior), so repeated
invocations produce identical results. -/
theorem parse_functions_deterministic (st1 st2 : CppParser)
    (parse1 parse2 : String → Option SyntaxNode) (sourceCode : String)
    (hp : st1.parserInitialized = st2.parserInitialized)
    (hl : st1.currentLanguageId = st2.currentLanguageId)
    (ht : parse1 sourceCode = parse2 sourceCode) :
    st1.parseFunctions parse1 sourceCode = st2.parseFunctions parse2 sourceCode := by
  simp only [CppParser.parseFunctions, hp, hl, ht]

/-- Witness for C8: two states selecting C that differ in their grammar
caches produce the same records for the same parsed tree. -/
theorem parse_functions_deterministic_witness :
    readyC.parseFunctions (fun _ => some addRoot) "int add(int a, int b) ..." =
      readyC2.parseFunctions (fun _ => some addRoot) "int add(int a, int b) ..." :=
  parse_functions_deterministic readyC readyC2 (fun _ => some addRoot)
    (fun _ => some addRoot) "int add(int a, int b) ..." rfl rfl rfl

/-- C9 counterexample: an invocation of `parseFunctions` on an
uninitialized parser throws instead of returning a list, and when the
external collaborator cannot produce a tree the fault propagates (the
unguarded `tree.rootNode` access raises) instead of an empty result set
being returned. -/
theorem parse_functions_fault_counterexample :
    uninitialized.parseFunctions (fun _ => some addRoot) "int x;" =
      Except.error "Parser not initialized" ∧
    readyC.parseFunctions (fun _ => none) "int x;" =
      Except.error "TypeError: null parse tree has no rootNode" :=
  ⟨rfl, rfl⟩

/-- C9 (amended): `parseFunctions` throws `Parser not initialized` when
the parser is uninitialized or no language has been set; when it is
initialized with a language set and the collaborator produces a tree it
returns a (possibly empty) list of records; and when the collaborator
cannot produce a tree the fault propagates rather than an empty result
being returned. -/
theorem parse_functions_failure_modes :
    (∀ (st : CppParser) (parse : String → Option SyntaxNode) (sourceCode : String),
      st.parserInitialized = false ∨ st.currentLanguageId = none →
      st.parseFunctions parse sourceCode = Except.error "Parser not initialized") ∧
    (∀ (st : CppParser) (parse : String → Option SyntaxNode) (sourceCode : String)
        (rootNode : SyntaxNode),
      st.parserInitialized = true → st.currentLanguageId.isSome = true →
      parse sourceCode = some rootNode →
      ∃ l, st.parseFunctions parse sourceCode = Except.ok l) ∧
    (∀ (st : CppParser) (parse : String → Option SyntaxNode) (sourceCode : String),
      st.parserInitialized = true → st.currentLanguageId.isSome = true →
      parse sourceCode = none →
      st.parseFunctions parse sourceCode =
        Except.error "TypeError: null parse tree has no rootNode") := by
  refine ⟨?_, ?_, ?_⟩
  · intro st parse sourceCode h
    rcases h with h | h <;> simp [CppParser.parseFunctions, h]
  · intro st parse sourceCode rootNode h1 h2 hp
    obtain ⟨lid, hlid⟩ := Option.isSome_iff_exists.mp h2
    simp [CppParser.parseFunctions, h1, hlid, hp]
  · intro st parse sourceCode h1 h2 hp
    obtain ⟨lid, hlid⟩ := Option.isSome_iff_exists.mp h2
    simp [CppParser.parseFunctions, h1, hlid, hp]

/-- Witness for C9: the three failure-mode clauses at concrete states. -/
theorem parse_functions_failure_modes_witness :
    uninitialized.parseFunctions (fun _ => some addRoot) "int x;" =
      Except.error "Parser not initialized" ∧
    (∃ l, readyC.parseFunctions (fun _ => some addRoot) "int x;" = Except.ok l) ∧
    readyC.parseFunctions (fun _ => none) "int x;" =
      Except.error "TypeError: null parse tree has no rootNode" :=
  ⟨parse_functions_failure_modes.1 uninitialized (fun _ => some addRoot) "int x;"
      (Or.inl rfl),
   parse_functions_failure_modes.2.1 readyC (fun _ => some addRoot) "int x;" addRoot
      rfl rfl rfl,
   parse_functions_failure_modes.2.2 readyC (fun _ => none) "int x;" rfl rfl rfl⟩

/-- C10: the language ids json, yaml and css are mapped to grammars of the
same name, `setLanguage` reports them as supported whenever the grammar
loads (or is cached), yet `parseFunctions` returns the empty list for
every produced tree because the registered function-node-type set of those
grammars is empty. -/
theorem data_only_languages_yield_empty (languageId : String)
    (hmem : languageId ∈ ["json", "yaml", "css"]) :
    LANGUAGE_GRAMMAR_MAP.lookup languageId = some languageId ∧
    (FUNCTION_NODE_TYPES.lookup languageId).getD [] = [] ∧
    (∀ (st : CppParser) (load : String → Except String GrammarHandle) (lang : GrammarHandle),
      load languageId = Except.ok lang → (st.setLanguage load languageId).1 = true) ∧
    (∀ (st : CppParser) (parse : String → Option SyntaxNode) (sourceCode : String)
        (rootNode : SyntaxNode),
      st.parserInitialized = true → st.currentLanguageId = some languageId →
      parse sourceCode = some rootNode →
      st.parseFunctions parse sourceCode = Except.ok []) := by
  have main : ∀ lid : String, LANGUAGE_GRAMMAR_MAP.lookup lid = some lid →
      (FUNCTION_NODE_TYPES.lookup lid).getD [] = [] →
      (∀ (st : CppParser) (load : String → Except String GrammarHandle) (lang : GrammarHandle),
        load lid = Except.ok lang → (st.setLanguage load lid).1 = true) ∧
      (∀ (st : CppParser) (parse : String → Option SyntaxNode) (sourceCode : String)
          (rootNode : SyntaxNode),
        st.parserInitialized = true → st.currentLanguageId = some lid →
        parse sourceCode = some rootNode →
        st.parseFunctions parse sourceCode = Except.ok []) := by
    intro lid hmap htypes
    refine ⟨?_, ?_⟩
    · intro st load lang hload
      simp only [CppParser.setLanguage, hmap]
      cases hc : st.languageCache.lookup lid with
      | some v => simp [hc]
      | none => simp [hc, hload]
    · intro st parse sourceCode rootNode h1 h2 hp
      simp [CppParser.parseFunctions, h1, h2, hp, hmap, htypes, findFunctions_nil_types]
  fin_cases hmem
  · exact ⟨rfl, rfl, main "json" rfl rfl⟩
  · exact ⟨rfl, rfl, main "yaml" rfl rfl⟩
  · exact ⟨rfl, rfl, main "css" rfl rfl⟩

/-- Witness for C10: with json selected, any produced tree yields the
empty record list, and `setLanguage` reports json as supported. -/
theorem data_only_languages_witness :
    readyJson.parseFunctions (fun _ => some addRoot) "[1, 2]" = Except.ok [] ∧
    (readyJson.setLanguage (fun _ => Except.ok 0) "json").1 = true :=
  ⟨(data_only_languages_yield_empty "json" (by decide)).2.2.2 readyJson
      (fun _ => some addRoot) "[1, 2]" addRoot rfl rfl rfl,
   (data_only_languages_yield_empty "json" (by decide)).2.2.1 readyJson
      (fun _ => Except.ok 0) 0 rfl⟩
